import Mathlib

/-!
Verification of `exoplanet.theano_ops.rebound.ReboundOp.perform`
(file `src/exoplanet/theano_ops/rebound/rebound.py`).

The method marshals `(masses, coords, times)` arrays into a fresh
simulation of the external `rebound` N-body library, advances the
simulation to each requested time, and reads every particle's
`(x, y, z, vx, vy, vz)` state into a `(T, N, 6)` result tensor.

The `rebound` library is third-party and outside this repository; it is
modelled here as an opaque interface following the specification's
description of the consumed upstream API: construct-simulation,
set-gravitational-constant, add-particle(mass, x, y, z, vx, vy, vz),
advance-simulation-by(delta-t), and read current per-particle state.
The dynamics of the integrator are an arbitrary parameter (`Integrator`);
only the clock bookkeeping (advance-by adds delta-t to the clock) and the
particle-count preservation implicit in the per-particle readout are part
of the interface.  Numeric scalars are modelled as rationals.

The `np.empty` allocation of `perform` leaves unwritten cells with
arbitrary contents; this is modelled by an explicit `uninit` value
function supplying the arbitrary contents of the freshly allocated
tensor, which writes then overwrite.
-/

/-- Six-component state `(x, y, z, vx, vy, vz)` of one particle, the layout
of one row of the `coords` input of `ReboundOp.perform`. -/
structure PState where
  x : ℚ
  y : ℚ
  z : ℚ
  vx : ℚ
  vy : ℚ
  vz : ℚ
  deriving DecidableEq, Inhabited

/-- A particle held by the simulation: the mass passed to `sim.add` and the
six-component state. -/
structure Particle where
  m : ℚ
  s : PState
  deriving DecidableEq, Inhabited

/-- The external simulation object: gravitational constant `sim.G`, internal
clock `sim.t` (zero on construction), and the particle list `sim.particles`
in insertion order. -/
structure Sim where
  G : ℚ
  t : ℚ
  particles : List Particle
  deriving DecidableEq, Inhabited

/-- Opaque dynamics of the external N-body integrator: given the
gravitational constant, an advance interval, and the current particles, it
returns the particles after the advance.  Per the specification's upstream
contract the integrator only evolves the state of the fixed particle set,
so it preserves the particle count. -/
structure Integrator where
  adv : ℚ → ℚ → List Particle → List Particle
  adv_length : ∀ G dt ps, (adv G dt ps).length = ps.length

/-- Model of `sim.integrate(dt)` under the specification's
advance-simulation-by(delta-t) contract: the clock advances by `dt` and the
particles evolve under the opaque dynamics. -/
def integrate (I : Integrator) (dt : ℚ) (sim : Sim) : Sim :=
  { G := sim.G, t := sim.t + dt, particles := I.adv sim.G dt sim.particles }

/-- The mass passed to `sim.add` for particle `i` in `ReboundOp.perform`:
`1.0` for the primary (index 0), `masses[i] / masses[0]` for every
subsequent particle. -/
def simMass (masses : List ℚ) (i : ℕ) : ℚ :=
  if i = 0 then 1 else masses.getD i 0 / masses.getD 0 0

/-- Lines 40-48 of `rebound.py`: construct `rebound.Simulation()` (clock 0),
set `sim.G = masses[0]**2`, and add the `num = len(masses)` particles in
order with their `sim.add` masses and the corresponding `coords` rows.
Faithful on the domain `masses.length ≤ coords.length` and
`1 ≤ masses.length` (outside it the Python code raises an index error,
which no claim concerns). -/
def initSim (masses : List ℚ) (coords : List PState) : Sim :=
  { G := (masses.getD 0 0) ^ 2,
    t := 0,
    particles := (List.range masses.length).map
      (fun i => { m := simMass masses i, s := coords.getD i default }) }

/-- Readout order `"x y z vx vy vz".split()` of lines 52-54. -/
def stateList (p : Particle) : List ℚ :=
  [p.s.x, p.s.y, p.s.z, p.s.vx, p.s.vy, p.s.vz]

/-- One time-slice `results[i]` of the result tensor after the inner
write loops of lines 52-54: `rows` is `coords.shape[0]` (the axis-1 extent
of the `np.empty` allocation), and for each `j` the write loop over
`enumerate(sim.particles)` fills row `j` with particle `j`'s state when
`j < len(sim.particles)`; any remaining row keeps the arbitrary
`np.empty` contents `uninit i j k`. -/
def readRow (uninit : ℕ → ℕ → ℕ → ℚ) (rows i : ℕ) (sim : Sim) : List (List ℚ) :=
  (List.range rows).map (fun j =>
    if h : j < sim.particles.length then stateList (sim.particles.get ⟨j, h⟩)
    else (List.range 6).map (fun k => uninit i j k))

/-- Lines 50-54 of `rebound.py`: `for i, t in enumerate(times):
sim.integrate(t - sim.t)` followed by the per-particle readout into
`results[i]`. -/
def evalLoop (I : Integrator) (uninit : ℕ → ℕ → ℕ → ℚ) (rows : ℕ) :
    ℕ → Sim → List ℚ → List (List (List ℚ))
  | _, _, [] => []
  | i, sim, t :: ts =>
    let sim' := integrate I (t - sim.t) sim
    readRow uninit rows i sim' :: evalLoop I uninit rows (i + 1) sim' ts

/-- `ReboundOp.perform`: allocate `results = np.empty(times.shape +
coords.shape)` (arbitrary contents `uninit`), build the simulation from
`masses` and `coords`, then run the evaluation loop.  Returns the filled
result tensor. -/
def perform (I : Integrator) (uninit : ℕ → ℕ → ℕ → ℚ)
    (masses : List ℚ) (coords : List PState) (times : List ℚ) :
    List (List (List ℚ)) :=
  evalLoop I uninit coords.length 0 (initSim masses coords) times

/-- Trace of simulation states reached after each `sim.integrate` call of
the evaluation loop, in order: a specification-side view of the loop used
to state clock and per-particle properties. -/
def runTimes (I : Integrator) : Sim → List ℚ → List Sim
  | _, [] => []
  | sim, t :: ts =>
    let sim' := integrate I (t - sim.t) sim
    sim' :: runTimes I sim' ts

/-- The state of simulated particle `i` when the `tIdx`-th requested time
has been reached (the state read into `results[tIdx, i]`). -/
def particleAt (I : Integrator) (masses : List ℚ) (coords : List PState)
    (times : List ℚ) (tIdx i : ℕ) : Particle :=
  ((runTimes I (initSim masses coords) times).getD tIdx (initSim masses coords)).particles.getD i default

/-- The inputs as `perform` receives them from the graph runtime; used to
state frame properties (the call returns them unchanged). -/
structure Inputs where
  masses : List ℚ
  coords : List PState
  times : List ℚ
  deriving DecidableEq

/-- `ReboundOp.perform` viewed with its input store made explicit: the
source reads the three input arrays and writes only the freshly allocated
local `results`, so the store is passed through unchanged next to the
produced tensor. -/
def performStep (I : Integrator) (uninit : ℕ → ℕ → ℕ → ℚ) (inp : Inputs) :
    Inputs × List (List (List ℚ)) :=
  (inp, perform I uninit inp.masses inp.coords inp.times)

/-- A concrete instance of the opaque integrator interface used to
instantiate theorems: every particle drifts in `x` by `G * dt`.  Its
dynamics depend on the gravitational constant, as any gravitational
integrator's do. -/
def demoAdv (G dt : ℚ) (ps : List Particle) : List Particle :=
  ps.map (fun p => { p with s := { p.s with x := p.s.x + G * dt } })

/-- The drift dynamics packaged as an `Integrator`. -/
def demoIntegrator : Integrator :=
  { adv := demoAdv, adv_length := fun G dt ps => by simp [demoAdv] }

/-- The trivial instance of the integrator interface: particles do not
move.  A lone particle is a fixed point of any force-free dynamics, so
this instance realises the specification's single-particle assumption. -/
def idIntegrator : Integrator :=
  { adv := fun _ _ ps => ps, adv_length := fun _ _ _ => rfl }

/-- Arbitrary-contents function standing for a `np.empty` allocation whose
junk happens to be all zeroes. -/
def uninit0 : ℕ → ℕ → ℕ → ℚ := fun _ _ _ => 0

/-- Arbitrary-contents function with a recognisable non-zero pattern, used
to exhibit that unwritten cells keep their allocation junk. -/
def uninitMark : ℕ → ℕ → ℕ → ℚ := fun i j k => 100 * i + 10 * j + k + 7

/-- Index permutation applied to a list: entry `i` of the output is entry
`p i` of the input, for `i < n`. -/
def permRows {α : Type} (p : ℕ → ℕ) (n : ℕ) (l : List α) (d : α) : List α :=
  (List.range n).map (fun i => l.getD (p i) d)

/-- Transposition of indices 0 and 1, a permutation moving the primary. -/
def swap01 : ℕ → ℕ := fun i => if i = 0 then 1 else if i = 1 then 0 else i

/-- Transposition of indices 1 and 2, a permutation fixing the primary. -/
def swap12 : ℕ → ℕ := fun i => if i = 1 then 2 else if i = 2 then 1 else i

/-- Fallible view of the external library, used to state error
propagation: adding a particle to the simulation and advancing the
simulation may each fail (spec section 7: all failures are passthrough).
`addP` returns the simulation extended with the particle or an error;
`advE` returns the evolved particles or an error. -/
structure FIntegrator where
  addP : Sim → Particle → Except String Sim
  advE : ℚ → ℚ → List Particle → Except String (List Particle)

/-- Lines 40-48 of `rebound.py` under the fallible library view: construct
the simulation with `sim.G = masses[0]**2` and clock 0, then perform the
`sim.add` calls in order; the first failing `sim.add` aborts the whole
construction with its error. -/
def addRangeE (FI : FIntegrator) (masses : List ℚ) (coords : List PState) :
    List ℕ → Sim → Except String Sim
  | [], sim => Except.ok sim
  | i :: is, sim =>
    match FI.addP sim { m := simMass masses i, s := coords.getD i default } with
    | Except.error e => Except.error e
    | Except.ok sim' => addRangeE FI masses coords is sim'

/-- Simulation construction (lines 40-48) in the fallible view. -/
def initSimE (FI : FIntegrator) (masses : List ℚ) (coords : List PState) :
    Except String Sim :=
  addRangeE FI masses coords (List.range masses.length)
    { G := (masses.getD 0 0) ^ 2, t := 0, particles := [] }

/-- The evaluation loop (lines 50-54) in the fallible view: each
`sim.integrate(t - sim.t)` may fail, aborting the whole call with the
error; on success the trace of reached states is returned. -/
def runTimesE (FI : FIntegrator) : Sim → List ℚ → Except String (List Sim)
  | _, [] => Except.ok []
  | sim, t :: ts =>
    match FI.advE sim.G (t - sim.t) sim.particles with
    | Except.error e => Except.error e
    | Except.ok ps =>
      match runTimesE FI { G := sim.G, t := sim.t + (t - sim.t), particles := ps } ts with
      | Except.error e => Except.error e
      | Except.ok rest =>
        Except.ok ({ G := sim.G, t := sim.t + (t - sim.t), particles := ps } :: rest)

/-- `ReboundOp.perform` in the fallible view: either every step succeeds
and the fully populated result tensor is returned, or the first error
anywhere aborts the call with no partial result. -/
def performE (FI : FIntegrator) (uninit : ℕ → ℕ → ℕ → ℚ)
    (masses : List ℚ) (coords : List PState) (times : List ℚ) :
    Except String (List (List (List ℚ))) :=
  match initSimE FI masses coords with
  | Except.error e => Except.error e
  | Except.ok sim =>
    match runTimesE FI sim times with
    | Except.error e => Except.error e
    | Except.ok sims =>
      Except.ok ((sims.zip (List.range times.length)).map
        (fun p => readRow uninit coords.length p.2 p.1))

/-- A fallible library instance that rejects a particle whose `sim.add`
mass is degenerate (zero), as a library may on an invalid mass ratio, and
otherwise appends it; advancing drifts particles as `demoAdv`. -/
def strictFI : FIntegrator :=
  { addP := fun sim p =>
      if p.m = 0 then Except.error "invalid mass"
      else Except.ok { sim with particles := sim.particles ++ [p] },
    advE := fun G dt ps => Except.ok (demoAdv G dt ps) }

/- Basic lemmas about the loop. -/

theorem runTimes_length (I : Integrator) :
    ∀ (ts : List ℚ) (sim : Sim), (runTimes I sim ts).length = ts.length := by
  intro ts
  induction ts with
  | nil => intro sim; rfl
  | cons t ts ih => intro sim; simp [runTimes, ih]

theorem evalLoop_eq_readRows (I : Integrator) (uninit : ℕ → ℕ → ℕ → ℚ) (rows : ℕ) :
    ∀ (ts : List ℚ) (i : ℕ) (sim : Sim),
      evalLoop I uninit rows i sim ts =
        ((runTimes I sim ts).zip (List.range ts.length)).map
          (fun p => readRow uninit rows (i + p.2) p.1) := by
  intro ts
  induction ts with
  | nil => intro i sim; rfl
  | cons t ts ih =>
    intro i sim
    simp only [evalLoop, runTimes, List.length_cons, List.range_succ_eq_map,
      List.zip_cons_cons, List.map_cons]
    refine congrArg₂ _ (by simp) ?_
    rw [ih (i + 1)]
    rw [List.zip_map_right, List.map_map]
    refine congrArg₂ _ ?_ rfl
    funext p
    simp [Function.comp]
    ring_nf

theorem runTimes_clock (I : Integrator) :
    ∀ (ts : List ℚ) (sim : Sim) (k : ℕ), k < ts.length →
      ((runTimes I sim ts).getD k default).t = ts.getD k 0 := by
  intro ts
  induction ts with
  | nil => intro sim k hk; exact absurd hk (by simp)
  | cons t ts ih =>
    intro sim k hk
    cases k with
    | zero =>
      show (integrate I (t - sim.t) sim).t = t
      simp [integrate]
    | succ k =>
      simp only [runTimes, List.getD_cons_succ]
      exact ih _ k (by simpa using hk)

theorem runTimes_particles_length (I : Integrator) :
    ∀ (ts : List ℚ) (sim : Sim) (s : Sim), s ∈ runTimes I sim ts →
      s.particles.length = sim.particles.length := by
  intro ts
  induction ts with
  | nil => intro sim s hs; simp [runTimes] at hs
  | cons t ts ih =>
    intro sim s hs
    simp only [runTimes, List.mem_cons] at hs
    rcases hs with h | h
    · subst h; simp [integrate, Integrator.adv_length]
    · rw [ih _ s h]; simp [integrate, Integrator.adv_length]

theorem initSim_particles_length (masses : List ℚ) (coords : List PState) :
    (initSim masses coords).particles.length = masses.length := by
  simp [initSim]

/-- C1: for inputs with at least one requested time, the evaluation loop of
`perform` processes the requested times in order, calling
`sim.integrate(times[k] - sim.t)` once per requested time, so that after the
`k`-th advance the simulation clock equals exactly `times[k]` when the
particle states are read out. -/
theorem c1_clock_hits_each_requested_time (I : Integrator)
    (uninit : ℕ → ℕ → ℕ → ℚ) (masses : List ℚ) (coords : List PState)
    (times : List ℚ) (hT : 1 ≤ times.length) :
    perform I uninit masses coords times =
      ((runTimes I (initSim masses coords) times).zip (List.range times.length)).map
        (fun p => readRow uninit coords.length p.2 p.1) ∧
    (runTimes I (initSim masses coords) times).length = times.length ∧
    ∀ k, k < times.length →
      ((runTimes I (initSim masses coords) times).getD k default).t = times.getD k 0 := by
  refine ⟨?_, runTimes_length I times _, fun k hk => runTimes_clock I times _ k hk⟩
  rw [perform, evalLoop_eq_readRows]
  simp

/-- C1 witness: with the drift integrator, one particle and requested times
`[2, 5]`, the simulation clock after the second advance is exactly `5`. -/
theorem c1_witness :
    ((runTimes demoIntegrator (initSim [1] [default]) [2, 5]).getD 1 default).t = 5 := by
  have h := c1_clock_hits_each_requested_time demoIntegrator uninit0 [1] [default]
    [2, 5] (by decide)
  exact h.2.2 1 (by decide)

/-- C4: evaluating with a times vector of length 0 succeeds and returns the
empty result tensor (shape `(0, N, 6)`): the pure model returns `[]` and the
fallible model returns `Except.ok []` whenever the simulation construction
itself succeeds, as it does on valid inputs. -/
theorem c4_empty_times (I : Integrator) (FI : FIntegrator)
    (uninit : ℕ → ℕ → ℕ → ℚ) (masses : List ℚ) (coords : List PState)
    (sim : Sim) (hok : initSimE FI masses coords = Except.ok sim) :
    perform I uninit masses coords [] = [] ∧
    performE FI uninit masses coords [] = Except.ok [] := by
  constructor
  · rfl
  · simp [performE, hok, runTimesE]

/-- C4 witness: the strict fallible library accepts the single valid
particle and the call with zero requested times returns the empty tensor. -/
theorem c4_witness :
    perform idIntegrator uninit0 [1] [default] [] = [] ∧
    performE strictFI uninit0 [1] [default] [] = Except.ok [] := by
  have h := c4_empty_times idIntegrator strictFI uninit0 [1] [default]
    { G := 1, t := 0, particles := [{ m := 1, s := default }] } (by rfl)
  exact ⟨h.1, h.2⟩

/-- C5: for any input with at least one mass, the constructed simulation has
gravitational constant `masses[0]^2` and a fresh clock, particle 0 is added
with simulation mass exactly `1` and the position/velocity of coords row 0,
and every particle `i` with `1 ≤ i < N` is added with simulation mass
`masses[i] / masses[0]` and the position/velocity of coords row `i`. -/
theorem c5_population (masses : List ℚ) (coords : List PState)
    (h1 : 1 ≤ masses.length) :
    (initSim masses coords).G = (masses.getD 0 0) ^ 2 ∧
    (initSim masses coords).t = 0 ∧
    (initSim masses coords).particles.length = masses.length ∧
    (initSim masses coords).particles.getD 0 default =
      { m := 1, s := coords.getD 0 default } ∧
    ∀ i, 1 ≤ i → i < masses.length →
      (initSim masses coords).particles.getD i default =
        { m := masses.getD i 0 / masses.getD 0 0, s := coords.getD i default } := by
  refine ⟨rfl, rfl, initSim_particles_length masses coords, ?_, ?_⟩
  · have h0 : 0 < (initSim masses coords).particles.length := by
      rw [initSim_particles_length]; exact h1
    rw [List.getD_eq_getElem _ _ h0]
    simp [initSim, simMass]
  · intro i hi1 hin
    have h0 : i < (initSim masses coords).particles.length := by
      rw [initSim_particles_length]; exact hin
    rw [List.getD_eq_getElem _ _ h0]
    have : i ≠ 0 := by omega
    simp [initSim, simMass, this]

/-- C5 witness: with masses `[2, 6]`, the simulation gets `G = 4`, primary
simulation mass `1`, and secondary simulation mass `6 / 2 = 3`. -/
theorem c5_witness :
    (initSim [2, 6] [default, default]).G = 4 ∧
    (initSim [2, 6] [default, default]).particles.getD 0 default =
      { m := 1, s := default } ∧
    (initSim [2, 6] [default, default]).particles.getD 1 default =
      { m := 3, s := default } := by
  have h := c5_population [2, 6] [default, default] (by decide)
  refine ⟨by rw [h.1]; norm_num, by rw [h.2.2.2.1]; simp, ?_⟩
  rw [h.2.2.2.2 1 (by decide) (by decide)]
  simp only [List.getD_cons_succ, List.getD_cons_zero]
  norm_num

/-- C8: each `perform` call returns its input store unchanged next to the
result tensor, the result is a function of the inputs alone (a fresh
simulation with clock 0 is built from the mass and coordinate inputs), and
the loop advances the fresh simulation exactly `T` times before the
simulation is dropped; no other state exists for a call to read or write. -/
theorem c8_fresh_simulation_no_side_effects (I : Integrator)
    (uninit : ℕ → ℕ → ℕ → ℚ) (inp : Inputs) :
    (performStep I uninit inp).1 = inp ∧
    (performStep I uninit inp).2 = perform I uninit inp.masses inp.coords inp.times ∧
    (initSim inp.masses inp.coords).t = 0 ∧
    (runTimes I (initSim inp.masses inp.coords) inp.times).length = inp.times.length :=
  ⟨rfl, rfl, rfl, runTimes_length I inp.times _⟩

theorem runTimes_singleton (I : Integrator) (p : Particle)
    (hsolo : ∀ G dt q, I.adv G dt [q] = [q]) :
    ∀ (ts : List ℚ) (sim : Sim), sim.particles = [p] →
      ∀ s ∈ runTimes I sim ts, s.particles = [p] := by
  intro ts
  induction ts with
  | nil => intro sim hsim s h; simp [runTimes] at h
  | cons t ts ih =>
    intro sim hsim s h
    have hsim' : (integrate I (t - sim.t) sim).particles = [p] := by
      simp [integrate, hsim, hsolo]
    simp only [runTimes, List.mem_cons] at h
    rcases h with h | h
    · rw [h]; exact hsim'
    · exact ih _ hsim' s h

/-- C2: for a single particle (N = 1) and any requested times, under the
specification's black-box assumption that a lone particle is a fixed point
of the integrator's dynamics, every output state equals the initial input
state from coords row 0 unchanged, at every requested time. -/
theorem c2_single_particle_identity (I : Integrator) (uninit : ℕ → ℕ → ℕ → ℚ)
    (masses : List ℚ) (coords : List PState) (times : List ℚ)
    (hsolo : ∀ G dt q, I.adv G dt [q] = [q])
    (hm : masses.length = 1) (hc : coords.length = 1) :
    perform I uninit masses coords times =
      List.replicate times.length
        [stateList { m := 1, s := coords.getD 0 default }] := by
  have hinit : (initSim masses coords).particles =
      [{ m := 1, s := coords.getD 0 default }] := by
    simp [initSim, hm, simMass, List.range_succ]
  rw [perform, evalLoop_eq_readRows]
  rw [List.eq_replicate_iff]
  constructor
  · simp [runTimes_length]
  · intro b hb
    simp only [List.mem_map] at hb
    obtain ⟨q, hq, rfl⟩ := hb
    obtain ⟨s, n⟩ := q
    have hmem : s ∈ runTimes I (initSim masses coords) times :=
      (List.of_mem_zip hq).1
    have hpart := runTimes_singleton I _ hsolo times _ hinit s hmem
    simp [readRow, hc, hpart, List.range_succ]

/-- C2 witness: a lone particle with a distinctive state is reported
unchanged at both requested times. -/
theorem c2_witness :
    perform idIntegrator uninit0 [7] [⟨1, 2, 3, 4, 5, 6⟩] [10, 20] =
      [[[1, 2, 3, 4, 5, 6]], [[1, 2, 3, 4, 5, 6]]] := by
  have h := c2_single_particle_identity idIntegrator uninit0 [7]
    [⟨1, 2, 3, 4, 5, 6⟩] [10, 20] (fun _ _ _ => rfl) (by decide) (by decide)
  rw [h]
  rfl

/-- C3: for valid inputs (as many coordinate rows as masses, at least one
particle), the result tensor has exactly `times.length` time slices, each
slice has exactly one row per particle, and row `i` of slice `tIdx` is the
six-component list `(x, y, z, vx, vy, vz)`, in that order, of simulated
particle `i` when requested time `tIdx` has been reached. -/
theorem c3_result_shape_and_layout (I : Integrator) (uninit : ℕ → ℕ → ℕ → ℚ)
    (masses : List ℚ) (coords : List PState) (times : List ℚ)
    (hmc : masses.length = coords.length) (h1 : 1 ≤ masses.length) :
    (perform I uninit masses coords times).length = times.length ∧
    ∀ tIdx, tIdx < times.length →
      ((perform I uninit masses coords times).getD tIdx []).length = masses.length ∧
      ∀ i, i < masses.length →
        (((perform I uninit masses coords times).getD tIdx []).getD i []).length = 6 ∧
        ((perform I uninit masses coords times).getD tIdx []).getD i [] =
          stateList (particleAt I masses coords times tIdx i) := by
  have hL : (runTimes I (initSim masses coords) times).length = times.length :=
    runTimes_length I times _
  have hperf : perform I uninit masses coords times =
      ((runTimes I (initSim masses coords) times).zip (List.range times.length)).map
        (fun p => readRow uninit coords.length p.2 p.1) := by
    rw [perform, evalLoop_eq_readRows]; simp
  rw [hperf]
  have hzlen : (((runTimes I (initSim masses coords) times).zip
      (List.range times.length)).map
      (fun p => readRow uninit coords.length p.2 p.1)).length = times.length := by
    simp [hL]
  refine ⟨hzlen, ?_⟩
  intro tIdx ht
  have htz : tIdx < (((runTimes I (initSim masses coords) times).zip
      (List.range times.length)).map
      (fun p => readRow uninit coords.length p.2 p.1)).length := by
    rw [hzlen]; exact ht
  have htz' : tIdx < ((runTimes I (initSim masses coords) times).zip
      (List.range times.length)).length := by
    simpa using htz
  have htL : tIdx < (runTimes I (initSim masses coords) times).length := by
    rw [hL]; exact ht
  rw [List.getD_eq_getElem _ _ htz, List.getElem_map, List.getElem_zip,
    List.getElem_range]
  have hmem : (runTimes I (initSim masses coords) times)[tIdx] ∈
      runTimes I (initSim masses coords) times := List.getElem_mem htL
  have hplen : ((runTimes I (initSim masses coords) times)[tIdx]).particles.length =
      masses.length := by
    rw [runTimes_particles_length I times _ _ hmem, initSim_particles_length]
  constructor
  · simp [readRow, hmc]
  · intro i hi
    have hic : i < coords.length := hmc ▸ hi
    have hip : i < ((runTimes I (initSim masses coords) times)[tIdx]).particles.length := by
      rw [hplen]; exact hi
    have hrr : i < (readRow uninit coords.length tIdx
        ((runTimes I (initSim masses coords) times)[tIdx])).length := by
      simpa [readRow] using hic
    rw [List.getD_eq_getElem _ _ hrr]
    have : (readRow uninit coords.length tIdx
        ((runTimes I (initSim masses coords) times)[tIdx]))[i] =
        stateList (((runTimes I (initSim masses coords) times)[tIdx]).particles.get
          ⟨i, hip⟩) := by
      simp [readRow, hip]
    rw [this]
    refine ⟨by simp [stateList], ?_⟩
    have hpa : particleAt I masses coords times tIdx i =
        ((runTimes I (initSim masses coords) times)[tIdx]).particles.get ⟨i, hip⟩ := by
      rw [particleAt, List.getD_eq_getElem _ _ htL, List.getD_eq_getElem _ _ hip]
      rfl
    rw [hpa]

/-- C3 witness: two particles, one requested time; the tensor has one
slice of two rows, and row 1 carries the second particle's state. -/
theorem c3_witness :
    (perform idIntegrator uninit0 [1, 2]
      [⟨1, 0, 0, 0, 0, 0⟩, ⟨0, 2, 0, 0, 0, 0⟩] [3]).length = 1 ∧
    ((perform idIntegrator uninit0 [1, 2]
      [⟨1, 0, 0, 0, 0, 0⟩, ⟨0, 2, 0, 0, 0, 0⟩] [3]).getD 0 []).getD 1 [] =
      [0, 2, 0, 0, 0, 0] := by
  have h := c3_result_shape_and_layout idIntegrator uninit0 [1, 2]
    [⟨1, 0, 0, 0, 0, 0⟩, ⟨0, 2, 0, 0, 0, 0⟩] [3] (by decide) (by decide)
  refine ⟨h.1, ?_⟩
  rw [((h.2 0 (by decide)).2 1 (by decide)).2]
  rfl

theorem readRow_uninit_irrelevant (u1 u2 : ℕ → ℕ → ℕ → ℚ) (rows i : ℕ)
    (sim : Sim) (h : rows ≤ sim.particles.length) :
    readRow u1 rows i sim = readRow u2 rows i sim := by
  simp only [readRow]
  apply List.map_congr_left
  intro j hj
  have hjp : j < sim.particles.length :=
    lt_of_lt_of_le (List.mem_range.mp hj) h
  rw [dif_pos hjp, dif_pos hjp]

/-- C7: evaluation is deterministic: the result tensor is a function of the
`(masses, coords, times)` inputs and the integrator alone.  On valid inputs
every cell of the freshly allocated tensor is overwritten, so not even the
arbitrary contents of the `np.empty` allocation - the only
call-to-call-varying state in the model - can influence the output. -/
theorem c7_deterministic (I : Integrator) (u1 u2 : ℕ → ℕ → ℕ → ℚ)
    (masses : List ℚ) (coords : List PState) (times : List ℚ)
    (hmc : masses.length = coords.length) :
    perform I u1 masses coords times = perform I u2 masses coords times := by
  rw [perform, perform, evalLoop_eq_readRows, evalLoop_eq_readRows]
  apply List.map_congr_left
  intro q hq
  obtain ⟨s, n⟩ := q
  have hmem : s ∈ runTimes I (initSim masses coords) times :=
    (List.of_mem_zip hq).1
  have hplen : s.particles.length = masses.length := by
    rw [runTimes_particles_length I times _ _ hmem, initSim_particles_length]
  exact readRow_uninit_irrelevant u1 u2 coords.length _ s (by omega)

/-- C7 witness: the same inputs evaluated over two different allocation
junk patterns give the same tensor. -/
theorem c7_witness :
    perform idIntegrator uninitMark [1] [⟨1, 2, 3, 4, 5, 6⟩] [5] =
      perform idIntegrator uninit0 [1] [⟨1, 2, 3, 4, 5, 6⟩] [5] :=
  c7_deterministic idIntegrator uninitMark uninit0 [1] [⟨1, 2, 3, 4, 5, 6⟩]
    [5] (by decide)

/-- C10: when `coords` has more rows than `masses` has entries, the call
does not fail: the tensor is allocated with `coords.length` rows per time
slice, but only the first `masses.length` rows of each slice are ever
written; every row with index at least `masses.length` still holds the
arbitrary contents of the `np.empty` allocation. -/
theorem c10_extra_rows_keep_junk (I : Integrator) (uninit : ℕ → ℕ → ℕ → ℚ)
    (masses : List ℚ) (coords : List PState) (times : List ℚ)
    (h1 : 1 ≤ masses.length) (hlt : masses.length < coords.length) :
    (perform I uninit masses coords times).length = times.length ∧
    ∀ tIdx, tIdx < times.length →
      ((perform I uninit masses coords times).getD tIdx []).length = coords.length ∧
      ∀ j, masses.length ≤ j → j < coords.length →
        ((perform I uninit masses coords times).getD tIdx []).getD j [] =
          (List.range 6).map (fun k => uninit tIdx j k) := by
  have hL : (runTimes I (initSim masses coords) times).length = times.length :=
    runTimes_length I times _
  have hperf : perform I uninit masses coords times =
      ((runTimes I (initSim masses coords) times).zip (List.range times.length)).map
        (fun p => readRow uninit coords.length p.2 p.1) := by
    rw [perform, evalLoop_eq_readRows]; simp
  rw [hperf]
  have hzlen : (((runTimes I (initSim masses coords) times).zip
      (List.range times.length)).map
      (fun p => readRow uninit coords.length p.2 p.1)).length = times.length := by
    simp [hL]
  refine ⟨hzlen, ?_⟩
  intro tIdx ht
  have htz : tIdx < (((runTimes I (initSim masses coords) times).zip
      (List.range times.length)).map
      (fun p => readRow uninit coords.length p.2 p.1)).length := by
    rw [hzlen]; exact ht
  have htL : tIdx < (runTimes I (initSim masses coords) times).length := by
    rw [hL]; exact ht
  rw [List.getD_eq_getElem _ _ htz, List.getElem_map, List.getElem_zip,
    List.getElem_range]
  have hmem : (runTimes I (initSim masses coords) times)[tIdx] ∈
      runTimes I (initSim masses coords) times := List.getElem_mem htL
  have hplen : ((runTimes I (initSim masses coords) times)[tIdx]).particles.length =
      masses.length := by
    rw [runTimes_particles_length I times _ _ hmem, initSim_particles_length]
  constructor
  · simp [readRow]
  · intro j hj1 hj2
    have hrr : j < (readRow uninit coords.length tIdx
        ((runTimes I (initSim masses coords) times)[tIdx])).length := by
      simpa [readRow] using hj2
    rw [List.getD_eq_getElem _ _ hrr]
    have hjp : ¬ j < ((runTimes I (initSim masses coords) times)[tIdx]).particles.length := by
      rw [hplen]; omega
    simp [readRow, hjp]

/-- C10 witness: one mass but two coordinate rows; the call succeeds and
row 1 of the only time slice still holds the distinctive allocation junk
`uninitMark 0 1 k = 17 + k`. -/
theorem c10_witness :
    ((perform idIntegrator uninitMark [1]
      [⟨1, 2, 3, 4, 5, 6⟩, ⟨9, 9, 9, 9, 9, 9⟩] [4]).getD 0 []).getD 1 [] =
      [17, 18, 19, 20, 21, 22] := by
  have h := c10_extra_rows_keep_junk idIntegrator uninitMark [1]
    [⟨1, 2, 3, 4, 5, 6⟩, ⟨9, 9, 9, 9, 9, 9⟩] [4] (by decide) (by decide)
  rw [(h.2 0 (by decide)).2 1 (by decide) (by decide)]
  norm_num [uninitMark, List.range_succ]

theorem runTimesE_ok_length (FI : FIntegrator) :
    ∀ (ts : List ℚ) (sim : Sim) (sims : List Sim),
      runTimesE FI sim ts = Except.ok sims → sims.length = ts.length := by
  intro ts
  induction ts with
  | nil =>
    intro sim sims h
    simp only [runTimesE] at h
    cases h
    rfl
  | cons t ts ih =>
    intro sim sims h
    cases hadv : FI.advE sim.G (t - sim.t) sim.particles with
    | error e =>
      simp only [runTimesE, hadv] at h
      cases h
    | ok ps =>
      cases hrec : runTimesE FI
          { G := sim.G, t := sim.t + (t - sim.t), particles := ps } ts with
      | error e =>
        simp only [runTimesE, hadv, hrec] at h
        cases h
      | ok rest =>
        simp only [runTimesE, hadv, hrec, Except.ok.injEq] at h
        subst h
        simp [ih _ rest hrec]

/-- C9: any failure while constructing the simulation (such as the library
rejecting the degenerate secondary mass ratio produced when `masses[0]` is
zero) or while advancing it propagates unchanged as the result of the whole
evaluation call, with no retry, recovery, or partial result: a successful
call always carries the full `times.length` by `coords.length` tensor. -/
theorem c9_failure_propagation (FI : FIntegrator) (uninit : ℕ → ℕ → ℕ → ℚ)
    (masses : List ℚ) (coords : List PState) (times : List ℚ) :
    (∀ e, initSimE FI masses coords = Except.error e →
      performE FI uninit masses coords times = Except.error e) ∧
    (∀ sim, initSimE FI masses coords = Except.ok sim →
      ∀ e, runTimesE FI sim times = Except.error e →
        performE FI uninit masses coords times = Except.error e) ∧
    (∀ r, performE FI uninit masses coords times = Except.ok r →
      r.length = times.length ∧ ∀ row ∈ r, row.length = coords.length) := by
  refine ⟨?_, ?_, ?_⟩
  · intro e he
    simp [performE, he]
  · intro sim hsim e he
    simp [performE, hsim, he]
  · intro r hr
    cases hinit : initSimE FI masses coords with
    | error e => simp [performE, hinit] at hr
    | ok sim =>
      cases hrun : runTimesE FI sim times with
      | error e => simp [performE, hinit, hrun] at hr
      | ok sims =>
        simp only [performE, hinit, hrun, Except.ok.injEq] at hr
        subst hr
        have hlen := runTimesE_ok_length FI times sim sims hrun
        constructor
        · simp [hlen]
        · intro row hrow
          simp only [List.mem_map] at hrow
          obtain ⟨q, _, rfl⟩ := hrow
          simp [readRow]

/-- C9 witness: with a primary mass of zero the secondary's `sim.add` mass
ratio is degenerate; the strict library instance rejects it, and the whole
call fails with exactly that error and no partial result. -/
theorem c9_witness :
    performE strictFI uninit0 [0, 1] [default, default] [1] =
      Except.error "invalid mass" := by
  have h := c9_failure_propagation strictFI uninit0 [0, 1] [default, default] [1]
  exact h.1 "invalid mass"
    (by simp [initSimE, addRangeE, strictFI, simMass, List.range_succ])

theorem permRows_length {α : Type} (p : ℕ → ℕ) (n : ℕ) (l : List α) (d : α) :
    (permRows p n l d).length = n := by
  simp [permRows]

theorem permRows_getD {α : Type} (p : ℕ → ℕ) (n : ℕ) (l : List α) (d : α)
    (i : ℕ) (hi : i < n) : (permRows p n l d).getD i d = l.getD (p i) d := by
  have h : i < ((List.range n).map (fun j => l.getD (p j) d)).length := by
    simp [hi]
  rw [permRows, List.getD_eq_getElem _ _ h, List.getElem_map, List.getElem_range]

theorem permRows_get {α : Type} (p : ℕ → ℕ) (n : ℕ) (l : List α) (d : α)
    (j : ℕ) (h : j < (permRows p n l d).length) :
    (permRows p n l d).get ⟨j, h⟩ = l.getD (p j) d := by
  simp [permRows]

theorem initSim_perm (masses : List ℚ) (coords : List PState)
    (p : ℕ → ℕ) (n : ℕ) (hm : masses.length = n) (h1 : 1 ≤ n)
    (hp : ∀ i, i < n → p i < n) (hp0 : p 0 = 0)
    (hinj : ∀ i, i < n → ∀ j, j < n → p i = p j → i = j) :
    initSim (permRows p n masses 0) (permRows p n coords default) =
      { G := (masses.getD 0 0) ^ 2, t := 0,
        particles := permRows p n (initSim masses coords).particles default } := by
  have hG : (permRows p n masses 0).getD 0 0 = masses.getD 0 0 := by
    rw [permRows_getD p n masses 0 0 h1, hp0]
  have hlen : (permRows p n masses 0).length = n := permRows_length p n masses 0
  simp only [initSim, hG, Sim.mk.injEq, true_and]
  have hplen : ((List.range masses.length).map
      (fun i => ({ m := simMass masses i, s := coords.getD i default } : Particle))).length =
      masses.length := by simp
  rw [hlen]
  show (List.range n).map _ = permRows p n _ default
  rw [permRows]
  apply List.map_congr_left
  intro i hi
  have hin : i < n := List.mem_range.mp hi
  have hpi : p i < n := hp i hin
  have hgi : ((List.range masses.length).map
      (fun j => ({ m := simMass masses j, s := coords.getD j default } : Particle))).getD
        (p i) default =
      { m := simMass masses (p i), s := coords.getD (p i) default } := by
    have hpim : p i < ((List.range masses.length).map
        (fun j => ({ m := simMass masses j, s := coords.getD j default } : Particle))).length := by
      simp [hm, hpi]
    rw [List.getD_eq_getElem _ _ hpim, List.getElem_map, List.getElem_range]
  rw [hgi]
  have hs : (permRows p n coords default).getD i default = coords.getD (p i) default :=
    permRows_getD p n coords default i hin
  have hmass : simMass (permRows p n masses 0) i = simMass masses (p i) := by
    by_cases h0 : i = 0
    · subst h0
      simp [simMass, hp0]
    · have hpne : p i ≠ 0 := by
        intro hc
        exact h0 (hinj i hin 0 h1 (by rw [hc, hp0]))
      rw [simMass, simMass, if_neg h0, if_neg hpne,
        permRows_getD p n masses 0 i hin, hG]
  rw [Particle.mk.injEq]
  exact ⟨hmass, hs⟩

theorem runTimes_perm (I : Integrator) (p : ℕ → ℕ) (n : ℕ)
    (hequi : ∀ G dt ps, ps.length = n →
      I.adv G dt (permRows p n ps default) = permRows p n (I.adv G dt ps) default) :
    ∀ (ts : List ℚ) (sim : Sim), sim.particles.length = n →
      runTimes I { G := sim.G, t := sim.t,
                   particles := permRows p n sim.particles default } ts =
        (runTimes I sim ts).map
          (fun s => { G := s.G, t := s.t,
                      particles := permRows p n s.particles default }) := by
  intro ts
  induction ts with
  | nil => intro sim h; rfl
  | cons t ts ih =>
    intro sim h
    have hlen : (integrate I (t - sim.t) sim).particles.length = n := by
      simp [integrate, I.adv_length, h]
    have hhead : integrate I (t - sim.t)
        { G := sim.G, t := sim.t, particles := permRows p n sim.particles default } =
        { G := (integrate I (t - sim.t) sim).G,
          t := (integrate I (t - sim.t) sim).t,
          particles := permRows p n (integrate I (t - sim.t) sim).particles default } := by
      simp [integrate, hequi sim.G (t - sim.t) sim.particles h]
    simp only [runTimes, List.map_cons]
    rw [hhead, ih (integrate I (t - sim.t) sim) hlen]

theorem permRows_getElem {α : Type} (p : ℕ → ℕ) (n : ℕ) (l : List α) (d : α)
    (j : ℕ) (h : j < (permRows p n l d).length) :
    (permRows p n l d)[j] = l.getD (p j) d := by
  simp [permRows]

theorem readRow_getElem_pos (uninit : ℕ → ℕ → ℕ → ℚ) (rows i : ℕ) (sim : Sim)
    (j : ℕ) (hb : j < (readRow uninit rows i sim).length)
    (hjp : j < sim.particles.length) :
    (readRow uninit rows i sim)[j] = stateList (sim.particles.get ⟨j, hjp⟩) := by
  simp [readRow, hjp]

theorem readRow_perm (uninit : ℕ → ℕ → ℕ → ℚ) (n i : ℕ) (sim : Sim)
    (p : ℕ → ℕ) (hp : ∀ j, j < n → p j < n) (h : sim.particles.length = n) :
    readRow uninit n i
      { G := sim.G, t := sim.t, particles := permRows p n sim.particles default } =
      permRows p n (readRow uninit n i sim) [] := by
  have hR : (readRow uninit n i sim).length = n := by simp [readRow]
  apply List.ext_getElem
  · simp [readRow, permRows]
  · intro j hj1 hj2
    have hjn : j < n := by simpa [readRow] using hj1
    have hpj : p j < n := hp j hjn
    have hjp2 : j < ({ G := sim.G, t := sim.t, particles := permRows p n sim.particles default } : Sim).particles.length := by
      show j < (permRows p n sim.particles default).length
      rw [permRows_length]; exact hjn
    rw [readRow_getElem_pos uninit n i _ j hj1 hjp2]
    rw [permRows_getElem p n (readRow uninit n i sim) [] j hj2]
    rw [show (({ G := sim.G, t := sim.t, particles := permRows p n sim.particles default } : Sim).particles.get ⟨j, hjp2⟩) = sim.particles.getD (p j) default from permRows_get p n sim.particles default j hjp2]
    have hpjp : p j < sim.particles.length := by rw [h]; exact hpj
    have hpjR : p j < (readRow uninit n i sim).length := by rw [hR]; exact hpj
    rw [List.getD_eq_getElem _ _ hpjR,
      readRow_getElem_pos uninit n i sim (p j) hpjR hpjp,
      List.getD_eq_getElem _ _ hpjp]
    rfl

/-- C6 (amended): no reindexing takes place, and a permuted mass/coordinate
particle list produces the correspondingly permuted result tensor provided
the permutation fixes the primary (index 0) and the integrator's dynamics
are equivariant under particle relabeling.  For permutations that move
index 0 the property fails, because the gravitational constant
`masses[0]^2` and the mass ratios `masses[i] / masses[0]` are recomputed
relative to the new index-0 particle (see the counterexample). -/
theorem c6_perm_equivariance_primary_fixed (I : Integrator)
    (uninit : ℕ → ℕ → ℕ → ℚ) (masses : List ℚ) (coords : List PState)
    (times : List ℚ) (p : ℕ → ℕ) (n : ℕ)
    (hm : masses.length = n) (hc : coords.length = n) (h1 : 1 ≤ n)
    (hp : ∀ i, i < n → p i < n) (hp0 : p 0 = 0)
    (hinj : ∀ i, i < n → ∀ j, j < n → p i = p j → i = j)
    (hequi : ∀ G dt ps, ps.length = n →
      I.adv G dt (permRows p n ps default) = permRows p n (I.adv G dt ps) default) :
    perform I uninit (permRows p n masses 0) (permRows p n coords default) times =
      (perform I uninit masses coords times).map (fun row => permRows p n row []) := by
  have hpc : (permRows p n coords default).length = n := permRows_length p n coords default
  have hlen0 : (initSim masses coords).particles.length = n := by
    rw [initSim_particles_length, hm]
  rw [perform, perform, evalLoop_eq_readRows, evalLoop_eq_readRows]
  simp only [Nat.zero_add]
  rw [initSim_perm masses coords p n hm h1 hp hp0 hinj]
  rw [show ({ G := (masses.getD 0 0) ^ 2, t := 0, particles := permRows p n (initSim masses coords).particles default } : Sim) = { G := (initSim masses coords).G, t := (initSim masses coords).t, particles := permRows p n (initSim masses coords).particles default } from rfl]
  rw [runTimes_perm I p n hequi times (initSim masses coords) hlen0]
  rw [hpc, hc]
  rw [List.zip_map_left, List.map_map, List.map_map]
  apply List.map_congr_left
  intro q hq
  obtain ⟨s, kk⟩ := q
  have hmem : s ∈ runTimes I (initSim masses coords) times := (List.of_mem_zip hq).1
  have hslen : s.particles.length = n := by
    rw [runTimes_particles_length I times _ _ hmem, initSim_particles_length, hm]
  show readRow uninit n kk { G := s.G, t := s.t, particles := permRows p n s.particles default } = permRows p n (readRow uninit n kk s) []
  exact readRow_perm uninit n kk s p hp hslen

/-- C6 witness: three equal-state particles, a transposition of the two
secondaries, and the relabeling-equivariant trivial integrator; the
permuted inputs evaluate to the permuted tensor. -/
theorem c6_witness :
    perform idIntegrator uninit0 (permRows swap12 3 [1, 2, 3] 0)
        (permRows swap12 3 [default, default, default] default) [4] =
      (perform idIntegrator uninit0 [1, 2, 3] [default, default, default] [4]).map
        (fun row => permRows swap12 3 row []) :=
  c6_perm_equivariance_primary_fixed idIntegrator uninit0 [1, 2, 3]
    [default, default, default] [4] swap12 3 (by decide) (by decide) (by decide)
    (by decide) (by decide) (by decide) (fun G dt ps h => rfl)

/-- C6 counterexample: permuting the whole particle list does not in
general permute the result tensor.  Swapping the two particles of masses
`[1, 2]` changes the gravitational constant from `1` to `4` and the
secondary mass ratio, so even under drift dynamics that are equivariant in
the particle labels at fixed `G`, the swapped evaluation differs from the
swap of the original evaluation. -/
theorem c6_counterexample :
    perform demoIntegrator uninit0 [2, 1]
        [{ x := 1, y := 0, z := 0, vx := 0, vy := 0, vz := 0 }, { x := 0, y := 0, z := 0, vx := 0, vy := 0, vz := 0 }] [1] ≠
      (perform demoIntegrator uninit0 [1, 2]
        [{ x := 0, y := 0, z := 0, vx := 0, vy := 0, vz := 0 }, { x := 1, y := 0, z := 0, vx := 0, vy := 0, vz := 0 }] [1]).map
        (fun row => permRows swap01 2 row []) := by
  have hL : perform demoIntegrator uninit0 [2, 1]
      [{ x := 1, y := 0, z := 0, vx := 0, vy := 0, vz := 0 }, { x := 0, y := 0, z := 0, vx := 0, vy := 0, vz := 0 }] [1] =
      [[[5, 0, 0, 0, 0, 0], [4, 0, 0, 0, 0, 0]]] := by
    norm_num [perform, evalLoop, initSim, integrate, demoIntegrator, demoAdv,
      readRow, simMass, stateList, List.range_succ, uninit0]
  have hR : (perform demoIntegrator uninit0 [1, 2]
      [{ x := 0, y := 0, z := 0, vx := 0, vy := 0, vz := 0 }, { x := 1, y := 0, z := 0, vx := 0, vy := 0, vz := 0 }] [1]).map
      (fun row => permRows swap01 2 row []) =
      [[[2, 0, 0, 0, 0, 0], [1, 0, 0, 0, 0, 0]]] := by
    norm_num [perform, evalLoop, initSim, integrate, demoIntegrator, demoAdv,
      readRow, simMass, stateList, List.range_succ, permRows, swap01, uninit0]
  rw [hL, hR]
  norm_num
